import Mathlib

/-!
Verification of the ticket-vault service (src/app/main.py).

The Python service keeps three pieces of state: a SQLite table
`transactions` (the ledger), an in-memory dict `app.ticket_totals`
(holder name → running total), and an integer `app.transaction_count`,
plus a registry of long-poll waiters `app.transaction_waiters`.

We embed the state shallowly: the ledger is a list of rows in insertion
order (the SQLite INTEGER PRIMARY KEY assigns ids 1..n in insertion
order, since rows are never deleted), the dict is an association list
with Python-dict semantics (insertion ordered, update in place), and the
HTTP handlers become pure functions from state and parsed request to
state and response.
-/

namespace TicketVault

/-! ### Python dict semantics over association lists -/

def dget? {β : Type} (d : List (String × β)) (k : String) : Option β :=
  (d.find? (fun p => p.1 == k)).map (fun p => p.2)

def dmem {β : Type} (d : List (String × β)) (k : String) : Bool :=
  (dget? d k).isSome

def dgetD {β : Type} (d : List (String × β)) (k : String) (v : β) : β :=
  (dget? d k).getD v

/-- `d[k] = v`: replace in place when present, else append (Python dict). -/
def dset {β : Type} : List (String × β) → String → β → List (String × β)
  | [], k, v => [(k, v)]
  | (k', v') :: d, k, v =>
    if k' == k then (k', v) :: d else (k', v') :: dset d k v

/-- `d.pop(k)`, the removal part: drop the first binding of `k`. -/
def dremove {β : Type} : List (String × β) → String → List (String × β)
  | [], _ => []
  | (k', v') :: d, k => if k' == k then d else (k', v') :: dremove d k

/-! ### Datetimes

Pydantic parses the incoming `timestamp` into a `datetime.datetime`
carrying wall-clock fields, microseconds and an optional UTC offset
(`"Z"` parses to offset 0; a naive string to `none`). -/

structure DateTime where
  year : Nat
  month : Nat
  day : Nat
  hour : Nat
  minute : Nat
  second : Nat
  microsecond : Nat
  offsetMinutes : Option Int
  deriving DecidableEq

def pad2 (n : Nat) : String :=
  if n < 10 then "0" ++ toString n else toString n

def pad4 (n : Nat) : String :=
  if n < 10 then "000" ++ toString n
  else if n < 100 then "00" ++ toString n
  else if n < 1000 then "0" ++ toString n
  else toString n

/-- `datetime.isoformat()` of a naive datetime with `microsecond == 0`:
no fraction and no offset are printed. -/
def isoformatNaive (dt : DateTime) : String :=
  pad4 dt.year ++ "-" ++ pad2 dt.month ++ "-" ++ pad2 dt.day ++ "T" ++
    pad2 dt.hour ++ ":" ++ pad2 dt.minute ++ ":" ++ pad2 dt.second

/-- `datetime_to_iso` (main.py line 330): zero the microseconds, DROP the
tzinfo without any conversion, render, and append `"Z"`. -/
def datetime_to_iso (dt : DateTime) : String :=
  isoformatNaive { dt with microsecond := 0, offsetMinutes := none } ++ "Z"

/-! ### Ledger rows and request models

`by` is a Lean keyword, so the `by` column/field is embedded as `by_`. -/

structure Transaction where
  timestamp : String
  by_ : String
  who : String
  amount : Int
  note : Option String
  deriving DecidableEq

structure TransactionWithId where
  id : Nat
  timestamp : String
  by_ : String
  who : String
  amount : Int
  note : Option String
  deriving DecidableEq

/-- A raw request body for registration: each field possibly missing. -/
structure RawRegistration where
  timestamp : Option DateTime
  by_ : Option String
  deriving DecidableEq

structure RegistrationModel where
  timestamp : DateTime
  by_ : String
  who : String
  deriving DecidableEq

/-- Pydantic validation of `RegistrationModel`: all fields present,
`by` and `who` nonempty (`must_not_be_empty`). -/
def parseRegistration (who : String) (r : RawRegistration) :
    Option RegistrationModel :=
  match r.timestamp, r.by_ with
  | some ts, some b => if b ≠ "" ∧ who ≠ "" then some ⟨ts, b, who⟩ else none
  | _, _ => none

def RegistrationModel.as_tuple (m : RegistrationModel) : Transaction :=
  { timestamp := datetime_to_iso m.timestamp
    by_ := m.by_
    who := m.who
    amount := 0
    note := some "Initial registration" }

structure RawRename where
  timestamp : Option DateTime
  by_ : Option String
  to_ : Option String
  deriving DecidableEq

structure RenameModel where
  timestamp : DateTime
  by_ : String
  who : String
  to_ : String
  deriving DecidableEq

def parseRename (who : String) (r : RawRename) : Option RenameModel :=
  match r.timestamp, r.by_, r.to_ with
  | some ts, some b, some t =>
    if b ≠ "" ∧ who ≠ "" ∧ t ≠ "" then some ⟨ts, b, who, t⟩ else none
  | _, _, _ => none

def RenameModel.as_tuple (m : RenameModel) : Transaction :=
  { timestamp := datetime_to_iso m.timestamp
    by_ := m.by_
    who := m.to_
    amount := 0
    note := some ("Ticket holder renamed from \"" ++ m.who ++ "\"") }

structure RawTransaction where
  timestamp : Option DateTime
  by_ : Option String
  who : Option String
  amount : Option Int
  note : Option String
  deriving DecidableEq

structure TransactionModel where
  timestamp : DateTime
  by_ : String
  who : String
  amount : Int
  note : Option String
  deriving DecidableEq

/-- Pydantic validation of one `TransactionModel` against the current
cache: fields present, `by`/`who` nonempty, `who` registered
(`who_must_be_registered`), `amount` nonzero
(`amount_must_not_be_zero`). -/
def validateTransaction (totals : List (String × Int)) (r : RawTransaction) :
    Option TransactionModel :=
  match r.timestamp, r.by_, r.who, r.amount with
  | some ts, some b, some w, some a =>
    if b ≠ "" ∧ w ≠ "" ∧ dmem totals w = true ∧ a ≠ 0 then
      some ⟨ts, b, w, a, r.note⟩
    else none
  | _, _, _, _ => none

/-- `TransactionListModel`: the whole list validates or the whole request
fails (pydantic collects the errors and raises one ValidationError). -/
def validateBatch (totals : List (String × Int)) :
    List RawTransaction → Option (List TransactionModel)
  | [] => some []
  | r :: rs =>
    match validateTransaction totals r, validateBatch totals rs with
    | some m, some ms => some (m :: ms)
    | _, _ => none

def TransactionModel.as_tuple (m : TransactionModel) : Transaction :=
  { timestamp := datetime_to_iso m.timestamp
    by_ := m.by_
    who := m.who
    amount := m.amount
    note := m.note }

/-! ### Application state and responses -/

/-- One long-poll registration (`TransactionWaiter`): a waiter count and
an `asyncio.Event`, embedded as its set/unset flag. -/
structure TransactionWaiter where
  waiter_count : Nat
  event : Bool
  deriving DecidableEq

structure AppState where
  /-- rows of the `transactions` table, in insertion order; the row at
  position `i` carries the INTEGER PRIMARY KEY id `i + 1` (rows are
  never deleted, so ids are dense). -/
  transactions : List Transaction
  /-- `app.ticket_totals` -/
  ticket_totals : List (String × Int)
  /-- `app.transaction_count` -/
  transaction_count : Nat
  /-- `app.transaction_waiters`, as threshold/registration pairs -/
  transaction_waiters : List (Nat × TransactionWaiter)
  deriving DecidableEq

def AppState.empty : AppState :=
  { transactions := [], ticket_totals := [], transaction_count := 0
    transaction_waiters := [] }

inductive Response where
  /-- a JSON message body, with an explicit or the default (200) status -/
  | message (status : Nat) (text : String)
  /-- the pydantic validation-error response, status 400 -/
  | errors (status : Nat)
  /-- the totals snapshot plus the x-transaction-count header -/
  | snapshot (status : Nat) (totals : List (String × Int)) (xcount : Nat)
  /-- the `/transactions` listing -/
  | listing (status : Nat) (items : List TransactionWithId) (xcount : Nat)
  deriving DecidableEq

def Response.status : Response → Nat
  | .message s _ => s
  | .errors s => s
  | .snapshot s _ _ => s
  | .listing s _ _ => s

/-- `notify_transaction_waiters` (main.py lines 358-361): for every
registration, set its event when `app.transaction_count` (passed here as
`count`) strictly exceeds the registration's threshold
(`count_last_seen`); otherwise leave the entry alone. -/
def notify_transaction_waiters (count : Nat) :
    List (Nat × TransactionWaiter) → List (Nat × TransactionWaiter)
  | [] => []
  | (t, w) :: rest =>
    (if count > t then (t, { w with event := true }) else (t, w)) ::
      notify_transaction_waiters count rest

/-- `register_ticket_holder` (main.py lines 95-121). The body is `none`
when the request carried no parseable JSON object (the transport rejects
it with a 400 before the handler's pydantic call); crucially, the
already-registered check on line 97 runs before the body is touched at
all. -/
def register_ticket_holder (s : AppState) (who : String)
    (body : Option RawRegistration) : AppState × Response :=
  if dmem s.ticket_totals who then
    (s, .message 200 ("\"" ++ who ++ "\" is already a registered ticket holder."))
  else
    match body with
    | none => (s, .errors 400)
    | some raw =>
      match parseRegistration who raw with
      | none => (s, .errors 400)
      | some reg =>
        let totals' := dset s.ticket_totals who 0
        let count' := s.transaction_count + 1
        let s2 : AppState :=
          { transactions := s.transactions ++ [reg.as_tuple]
            ticket_totals := totals'
            transaction_count := count'
            transaction_waiters :=
              notify_transaction_waiters count' s.transaction_waiters }
        (s2, .snapshot 201 totals' count')

/-- `rename_ticket_holder` (main.py lines 154-186): 404 when the holder
is unknown, else `UPDATE transactions SET who = to WHERE who = old`,
append the zero-amount marker row, then
`ticket_totals[to] = ticket_totals.pop(who)` and advance the counter. -/
def rename_ticket_holder (s : AppState) (who : String)
    (body : Option RawRename) : AppState × Response :=
  if ¬ dmem s.ticket_totals who then
    (s, .message 404 ("\"" ++ who ++ "\" is not a registered ticket holder."))
  else
    match body with
    | none => (s, .errors 400)
    | some raw =>
      match parseRename who raw with
      | none => (s, .errors 400)
      | some rn =>
        let moved : List Transaction :=
          s.transactions.map
            (fun t => if t.who == rn.who then { t with who := rn.to_ } else t)
        let totals' :=
          dset (dremove s.ticket_totals rn.who) rn.to_
            (dgetD s.ticket_totals rn.who 0)
        let count' := s.transaction_count + 1
        let s2 : AppState :=
          { transactions := moved ++ [rn.as_tuple]
            ticket_totals := totals'
            transaction_count := count'
            transaction_waiters :=
              notify_transaction_waiters count' s.transaction_waiters }
        (s2, .snapshot 200 totals' count')

/-- The first pass of `post_transactions` (main.py lines 283-285): the
adjustment dict starts with a zero for every registered holder, then
each batch item adds its amount onto its holder's entry. -/
def ticket_adjustments (totals : List (String × Int))
    (ms : List TransactionModel) : List (String × Int) :=
  ms.foldl (fun adj m => dset adj m.who (dgetD adj m.who 0 + m.amount))
    (totals.map (fun p => (p.1, (0 : Int))))

/-- The second pass (main.py lines 295-296): the adjustment dict's key
set equals the cache's key set (only registered holders are adjusted),
so iterating it with `ticket_totals[who] += amount` is a pointwise add
over the cache. -/
def applyAdjustments (totals adj : List (String × Int)) :
    List (String × Int) :=
  totals.map (fun p => (p.1, p.2 + dgetD adj p.1 0))

/-- `post_transactions` (main.py lines 259-305): validate the whole
batch; on failure return 400 with nothing written; on success append all
rows in caller order, apply net per-holder deltas to the cache, advance
the counter by the batch length and notify once. -/
def post_transactions (s : AppState) (batch : List RawTransaction) :
    AppState × Response :=
  match validateBatch s.ticket_totals batch with
  | none => (s, .errors 400)
  | some ms =>
    let totals' :=
      applyAdjustments s.ticket_totals (ticket_adjustments s.ticket_totals ms)
    let count' := s.transaction_count + ms.length
    let s2 : AppState :=
      { transactions := s.transactions ++ ms.map TransactionModel.as_tuple
        ticket_totals := totals'
        transaction_count := count'
        transaction_waiters :=
          notify_transaction_waiters count' s.transaction_waiters }
    (s2, .snapshot 201 totals' count')

/-! ### Startup rebuild -/

/-- The `SELECT who, SUM(amount) ... GROUP BY who` totals of a ledger. -/
def rebuildTotals (ledger : List Transaction) : List (String × Int) :=
  ledger.foldl (fun d t => dset d t.who (dgetD d t.who 0 + t.amount)) []

/-- The attributes `init_state` leaves on the app object. -/
structure StartupResult where
  ticket_totals : List (String × Int)
  transaction_count : Nat
  total_transactions : Nat
  deriving DecidableEq

/-- `init_state` (main.py lines 33-56): recomputes `app.ticket_totals`
from a full scan, but stores the scanned row count into
`app.total_transactions` (line 56) — a write-once attribute nothing else
reads — while `app.transaction_count` keeps its module-level initial
value 0 (line 20). -/
def init_state (ledger : List Transaction) : StartupResult :=
  { ticket_totals := rebuildTotals ledger
    transaction_count := 0
    total_transactions := ledger.length }

/-! ### History listing -/

/-- `SELECT *` rows carry their INTEGER PRIMARY KEY: annotate position
`i` (0-based) with id `i0 + i`. -/
def annotateFrom (i0 : Nat) : List Transaction → List TransactionWithId
  | [] => []
  | t :: ts =>
    ⟨i0, t.timestamp, t.by_, t.who, t.amount, t.note⟩ :: annotateFrom (i0 + 1) ts

def annotateIds (ledger : List Transaction) : List TransactionWithId :=
  annotateFrom 1 ledger

/-- Lexicographic order on code points; on the ASCII ISO strings stored
in the `timestamp` column this is exactly SQLite's default BINARY
collation (byte-wise memcmp order). -/
def strLtB : List Char → List Char → Bool
  | [], [] => false
  | [], _ :: _ => true
  | _ :: _, [] => false
  | a :: as, b :: bs =>
    if a < b then true else if b < a then false else strLtB as bs

def tsLt (a b : String) : Bool := strLtB a.data b.data

/-- Insertion step of `ORDER BY timestamp DESC`. -/
def insertDesc (x : TransactionWithId) :
    List TransactionWithId → List TransactionWithId
  | [] => [x]
  | y :: ys =>
    if tsLt x.timestamp y.timestamp then y :: insertDesc x ys else x :: y :: ys

def sortDescByTimestamp : List TransactionWithId → List TransactionWithId
  | [] => []
  | x :: xs => insertDesc x (sortDescByTimestamp xs)

def insertAsc (x : TransactionWithId) :
    List TransactionWithId → List TransactionWithId
  | [] => [x]
  | y :: ys =>
    if tsLt y.timestamp x.timestamp then y :: insertAsc x ys else x :: y :: ys

def sortAscByTimestamp : List TransactionWithId → List TransactionWithId
  | [] => []
  | x :: xs => insertAsc x (sortAscByTimestamp xs)

/-- `gen_transactions` (main.py lines 334-340): `SELECT * FROM
transactions ORDER BY timestamp ASC or ... DESC` — ordered by the TEXT
`timestamp` column, not by id. -/
def gen_transactions (ascending : Bool) (ledger : List Transaction) :
    List TransactionWithId :=
  if ascending then sortAscByTimestamp (annotateIds ledger)
  else sortDescByTimestamp (annotateIds ledger)

/-- `get_transactions` (main.py lines 202-207): the default listing,
`gen_transactions(ascending=False)`. -/
def get_transactions (s : AppState) : Response :=
  .listing 200 (gen_transactions false s.transactions) s.transaction_count

/-! ### The long-poll wait loop, as guards plus a wake trace -/

/-- The `while` guard of `transaction_greater_than` (main.py line 348):
the caller registers and suspends exactly while
`app.transaction_count <= count`. -/
def wait_guard (transaction_count threshold : Nat) : Bool :=
  transaction_count ≤ threshold

/-- The firing condition of `notify_transaction_waiters` (line 360): a
registration wakes when the new count strictly exceeds its threshold. -/
def notify_fires (transaction_count threshold : Nat) : Bool :=
  threshold < transaction_count

/-- A suspended waiter on `threshold` observed over a trace of
post-mutation counter values: at each committed mutation its event is
set iff `notify_fires`, and on wake it re-checks the `while` guard,
returning (with the then-current counter) only if the guard fails. -/
def waiterResume (threshold : Nat) : List Nat → Option Nat
  | [] => none
  | c :: cs =>
    if notify_fires c threshold ∧ wait_guard c threshold = false then some c
    else waiterResume threshold cs

/-! ### Spec-side instant semantics

The spec promises the persisted timestamp is "that instant expressed in
UTC at second precision, truncated". To compare, we need the absolute
instant a datetime denotes; the code itself never computes one. -/

/-- Days since 1970-01-01 of a proleptic-Gregorian civil date (the
standard days-from-civil computation). All intermediate values are
nonnegative for the dates used here, so the division convention is
immaterial. -/
def daysFromCivil (y m d : Int) : Int :=
  let y' := if m ≤ 2 then y - 1 else y
  let era := (if 0 ≤ y' then y' else y' - 399) / 400
  let yoe := y' - era * 400
  let mp := if 2 < m then m - 3 else m + 9
  let doy := (153 * mp + 2) / 5 + d - 1
  let doe := yoe * 365 + yoe / 4 - yoe / 100 + doy
  era * 146097 + doe - 719468

/-- The second-precision (sub-seconds truncated) UTC instant a datetime
denotes, as seconds since the epoch: wall-clock seconds minus the UTC
offset. This is the spec's reading of a timestamp, stated independently
of the code. -/
def specUTCInstant (dt : DateTime) : Int :=
  daysFromCivil dt.year dt.month dt.day * 86400 +
    dt.hour * 3600 + dt.minute * 60 + dt.second -
    dt.offsetMinutes.getD 0 * 60

/-- The instant the stored string denotes: `datetime_to_iso` prints the
wall-clock fields unchanged and appends `"Z"`, so the stored string is
read back as those wall-clock fields at offset 0. -/
def persistedInstant (dt : DateTime) : Int :=
  specUTCInstant { dt with microsecond := 0, offsetMinutes := some 0 }

/-! ### The consistency invariants -/

/-- Sum of amounts over the ledger rows whose current subject is `w`. -/
def sumFor (ledger : List Transaction) (w : String) : Int :=
  (ledger.map (fun t => if t.who == w then t.amount else 0)).sum

/-- Net signed amount for holder `w` in a validated batch. -/
def batchSum (ms : List TransactionModel) (w : String) : Int :=
  (ms.map (fun m => if m.who == w then m.amount else 0)).sum

/-- The balance-cache invariant: every holder's cached total (0 when
uncached) equals the sum of ledger amounts currently attributed to it. -/
def balanceInv (s : AppState) : Prop :=
  ∀ w : String, dgetD s.ticket_totals w 0 = sumFor s.transactions w

/-- Python dicts cannot hold a key twice; states reachable through the
operations keep the association list duplicate-free. -/
def keysNodup (d : List (String × Int)) : Prop :=
  (d.map Prod.fst).Nodup

def cacheOK (s : AppState) : Prop :=
  keysNodup s.ticket_totals ∧ balanceInv s

/-- The counter invariant: `app.transaction_count` equals the ledger's
row count. -/
def counterInv (s : AppState) : Prop :=
  s.transaction_count = s.transactions.length

/-- One public mutation request, as dispatched by the HTTP routes. -/
inductive Op where
  | register (who : String) (body : Option RawRegistration)
  | rename (who : String) (body : Option RawRename)
  | post (batch : List RawTransaction)

def applyOp (s : AppState) : Op → AppState × Response
  | .register who b => register_ticket_holder s who b
  | .rename who b => rename_ticket_holder s who b
  | .post batch => post_transactions s batch

/-- Shorthand for a caller-supplied UTC (`"...Z"`) timestamp. -/
def dtZ (y mo d h mi s : Nat) : DateTime :=
  ⟨y, mo, d, h, mi, s, 0, some 0⟩

/-! ### Lemmas about the dict operations -/

theorem dget?_nil {β : Type} (k : String) : dget? ([] : List (String × β)) k = none := rfl

theorem dget?_cons {β : Type} (k' : String) (v' : β) (d : List (String × β)) (k : String) :
    dget? ((k', v') :: d) k = if k' = k then some v' else dget? d k := by
  by_cases h : k' = k
  · rw [dget?, List.find?_cons_of_pos _ (by simp [h]), if_pos h]; rfl
  · rw [dget?, List.find?_cons_of_neg _ (by simp [h]), if_neg h]; rfl

theorem dget?_dset_self {β : Type} (d : List (String × β)) (k : String) (v : β) :
    dget? (dset d k v) k = some v := by
  induction d with
  | nil => simp [dset, dget?_cons]
  | cons p d ih =>
    obtain ⟨k', v'⟩ := p
    by_cases h : k' = k <;> simp [dset, h, dget?_cons, ih]

theorem dget?_dset_ne {β : Type} (d : List (String × β)) (k k' : String) (v : β)
    (h : k' ≠ k) : dget? (dset d k v) k' = dget? d k' := by
  induction d with
  | nil => simp [dset, dget?_cons, dget?_nil, Ne.symm h]
  | cons p d ih =>
    obtain ⟨k₀, v₀⟩ := p
    by_cases h₀ : k₀ = k <;> simp [dset, h₀, dget?_cons, ih]
    subst h₀
    simp [Ne.symm h]

theorem dmem_true_iff {β : Type} (d : List (String × β)) (k : String) :
    dmem d k = true ↔ ∃ v, dget? d k = some v := by
  simp [dmem, Option.isSome_iff_exists]

theorem dmem_false_iff {β : Type} (d : List (String × β)) (k : String) :
    dmem d k = false ↔ dget? d k = none := by
  cases h : dget? d k <;> simp [dmem, h]

theorem dmem_iff_mem_keys {β : Type} (d : List (String × β)) (k : String) :
    dmem d k = true ↔ k ∈ d.map Prod.fst := by
  induction d with
  | nil => simp [dmem, dget?_nil]
  | cons p d ih =>
    obtain ⟨k', v'⟩ := p
    by_cases h : k' = k
    · simp [dmem, dget?_cons, h]
    · have hm : dmem ((k', v') :: d) k = dmem d k := by
        simp [dmem, dget?_cons, h]
      rw [hm, ih]
      simp [Ne.symm h]

theorem keys_dset_of_mem {β : Type} (d : List (String × β)) (k : String) (v : β)
    (h : dmem d k = true) : (dset d k v).map Prod.fst = d.map Prod.fst := by
  induction d with
  | nil => simp [dmem, dget?_nil] at h
  | cons p d ih =>
    obtain ⟨k', v'⟩ := p
    by_cases hk : k' = k
    · simp [dset, hk]
    · simp only [dmem, dget?_cons, hk, if_neg] at h
      simp [dset, hk, ih h]

theorem keys_dset_of_not_mem {β : Type} (d : List (String × β)) (k : String) (v : β)
    (h : dmem d k = false) : (dset d k v).map Prod.fst = d.map Prod.fst ++ [k] := by
  induction d with
  | nil => simp [dset]
  | cons p d ih =>
    obtain ⟨k', v'⟩ := p
    by_cases hk : k' = k
    · simp [dmem, dget?_cons, hk] at h
    · simp only [dmem, dget?_cons, hk, if_neg] at h
      simp [dset, hk, ih h]

theorem dget?_dremove_ne {β : Type} (d : List (String × β)) (k k' : String)
    (h : k' ≠ k) : dget? (dremove d k) k' = dget? d k' := by
  induction d with
  | nil => simp [dremove]
  | cons p d ih =>
    obtain ⟨k₀, v₀⟩ := p
    by_cases h₀ : k₀ = k <;> by_cases h₁ : k₀ = k' <;>
      simp_all [dremove, dget?_cons]

theorem dremove_sublist {β : Type} (d : List (String × β)) (k : String) :
    (dremove d k).Sublist d := by
  induction d with
  | nil => simp [dremove]
  | cons p d ih =>
    obtain ⟨k₀, v₀⟩ := p
    by_cases h₀ : k₀ = k
    · subst h₀
      simp only [dremove, beq_self_eq_true, if_true]
      exact List.Sublist.cons _ (List.Sublist.refl d)
    · simpa [dremove, h₀] using List.Sublist.cons₂ (k₀, v₀) ih

theorem keys_dremove_nodup {β : Type} (d : List (String × β)) (k : String)
    (h : (d.map Prod.fst).Nodup) : ((dremove d k).map Prod.fst).Nodup :=
  ((dremove_sublist d k).map Prod.fst).nodup h

theorem dget?_dremove_self {β : Type} (d : List (String × β)) (k : String)
    (h : (d.map Prod.fst).Nodup) : dget? (dremove d k) k = none := by
  induction d with
  | nil => simp [dremove, dget?_nil]
  | cons p d ih =>
    obtain ⟨k₀, v₀⟩ := p
    simp only [List.map_cons, List.nodup_cons] at h
    by_cases h₀ : k₀ = k
    · subst h₀
      have hstep : dremove ((k₀, v₀) :: d) k₀ = d := by simp [dremove]
      rw [hstep, ← dmem_false_iff]
      cases hb : dmem d k₀ with
      | false => rfl
      | true => exact absurd ((dmem_iff_mem_keys d k₀).mp hb) h.1
    · have hstep : dremove ((k₀, v₀) :: d) k = (k₀, v₀) :: dremove d k := by
        simp [dremove, h₀]
      rw [hstep, dget?_cons, if_neg h₀]
      exact ih h.2

theorem dget?_mapVal {β : Type} (d : List (String × β)) (f : String → β → β)
    (k : String) :
    dget? (d.map (fun p => (p.1, f p.1 p.2))) k = (dget? d k).map (f k) := by
  induction d with
  | nil => simp [dget?_nil]
  | cons p d ih =>
    obtain ⟨k₀, v₀⟩ := p
    by_cases h : k₀ = k <;> simp [dget?_cons, h, ih]

theorem keys_mapVal {β : Type} (d : List (String × β)) (f : String → β → β) :
    (d.map (fun p => (p.1, f p.1 p.2))).map Prod.fst = d.map Prod.fst := by
  induction d with
  | nil => rfl
  | cons p d ih => simp [ih]

/-! ### Lemmas about sums, validation and the adjustment passes -/

theorem sumFor_nil (w : String) : sumFor [] w = 0 := rfl

theorem sumFor_cons (t : Transaction) (l : List Transaction) (w : String) :
    sumFor (t :: l) w = (if t.who = w then t.amount else 0) + sumFor l w := by
  by_cases h : t.who = w <;> simp [sumFor, h]

theorem sumFor_append (l₁ l₂ : List Transaction) (w : String) :
    sumFor (l₁ ++ l₂) w = sumFor l₁ w + sumFor l₂ w := by
  simp [sumFor]

theorem batchSum_nil (w : String) : batchSum [] w = 0 := rfl

theorem batchSum_cons (m : TransactionModel) (ms : List TransactionModel)
    (w : String) :
    batchSum (m :: ms) w = (if m.who = w then m.amount else 0) + batchSum ms w := by
  by_cases h : m.who = w <;> simp [batchSum, h]

theorem sumFor_as_tuple (ms : List TransactionModel) (w : String) :
    sumFor (ms.map TransactionModel.as_tuple) w = batchSum ms w := by
  induction ms with
  | nil => rfl
  | cons m ms ih =>
    simp only [List.map_cons, sumFor_cons, batchSum_cons, ih,
      TransactionModel.as_tuple]

theorem batchSum_eq_zero (ms : List TransactionModel) (w : String)
    (h : ∀ m ∈ ms, m.who ≠ w) : batchSum ms w = 0 := by
  induction ms with
  | nil => rfl
  | cons m ms ih =>
    rw [batchSum_cons, if_neg (h m (by simp)), ih (fun m' hm' => h m' (by simp [hm']))]
    rfl

theorem batchSum_perm (ms ms' : List TransactionModel) (h : ms.Perm ms')
    (w : String) : batchSum ms w = batchSum ms' w :=
  (h.map _).sum_eq

theorem validateTransaction_some (totals : List (String × Int))
    (r : RawTransaction) (m : TransactionModel)
    (h : validateTransaction totals r = some m) :
    dmem totals m.who = true ∧ m.amount ≠ 0 ∧ m.by_ ≠ "" ∧ m.who ≠ "" := by
  unfold validateTransaction at h
  split at h
  · split at h
    · rename_i hcond
      cases h
      exact ⟨hcond.2.2.1, hcond.2.2.2, hcond.1, hcond.2.1⟩
    · cases h
  · cases h

theorem validateBatch_mem (totals : List (String × Int))
    (rs : List RawTransaction) (ms : List TransactionModel)
    (h : validateBatch totals rs = some ms) :
    ∀ m ∈ ms, dmem totals m.who = true ∧ m.amount ≠ 0 := by
  induction rs generalizing ms with
  | nil =>
    simp only [validateBatch] at h
    cases h
    intro m hm
    exact absurd hm (by simp)
  | cons r rs ih =>
    simp only [validateBatch] at h
    cases h₁ : validateTransaction totals r <;> rw [h₁] at h
    · exact absurd h (by simp)
    · cases h₂ : validateBatch totals rs <;> rw [h₂] at h
      · exact absurd h (by simp)
      · rename_i m₀ ms₀
        cases h
        intro m hm
        rcases List.mem_cons.mp hm with hm | hm
        · subst hm
          have := validateTransaction_some totals r m h₁
          exact ⟨this.1, this.2.1⟩
        · exact ih ms₀ h₂ m hm

theorem validateBatch_length (totals : List (String × Int))
    (rs : List RawTransaction) (ms : List TransactionModel)
    (h : validateBatch totals rs = some ms) : ms.length = rs.length := by
  induction rs generalizing ms with
  | nil => simp only [validateBatch] at h; cases h; rfl
  | cons r rs ih =>
    simp only [validateBatch] at h
    cases h₁ : validateTransaction totals r <;> rw [h₁] at h
    · exact absurd h (by simp)
    · cases h₂ : validateBatch totals rs <;> rw [h₂] at h
      · exact absurd h (by simp)
      · rename_i m₀ ms₀
        cases h
        simp [ih ms₀ h₂]

theorem adjFold_get (ms : List TransactionModel) (adj : List (String × Int))
    (w : String) (hw : dmem adj w = true) :
    dget? (ms.foldl (fun a m => dset a m.who (dgetD a m.who 0 + m.amount)) adj) w =
      (dget? adj w).map (fun v => v + batchSum ms w) := by
  induction ms generalizing adj with
  | nil =>
    obtain ⟨v, hv⟩ := (dmem_true_iff adj w).mp hw
    simp [batchSum_nil, hv]
  | cons m ms ih =>
    obtain ⟨v, hv⟩ := (dmem_true_iff adj w).mp hw
    have hmem' : dmem (dset adj m.who (dgetD adj m.who 0 + m.amount)) w = true := by
      by_cases hmw : m.who = w
      · subst hmw
        rw [dmem_true_iff]
        exact ⟨_, dget?_dset_self _ _ _⟩
      · rw [dmem_true_iff]
        exact ⟨v, by rw [dget?_dset_ne _ _ _ _ (fun hh => hmw hh.symm)]; exact hv⟩
    rw [List.foldl_cons, ih _ hmem', batchSum_cons]
    by_cases hmw : m.who = w
    · subst hmw
      rw [dget?_dset_self, hv]
      simp [dgetD, hv]
      ring
    · rw [dget?_dset_ne _ _ _ _ (fun hh => hmw hh.symm), hv, if_neg hmw]
      simp

theorem ticket_adjustments_get (totals : List (String × Int))
    (ms : List TransactionModel) (w : String) (hw : dmem totals w = true) :
    dget? (ticket_adjustments totals ms) w = some (batchSum ms w) := by
  have hz : dget? (totals.map (fun p => (p.1, (0 : Int)))) w = some 0 := by
    obtain ⟨v, hv⟩ := (dmem_true_iff totals w).mp hw
    have := dget?_mapVal totals (fun _ _ => (0 : Int)) w
    rw [this, hv]
    rfl
  have hmem : dmem (totals.map (fun p => (p.1, (0 : Int)))) w = true := by
    rw [dmem_true_iff]; exact ⟨0, hz⟩
  unfold ticket_adjustments
  rw [adjFold_get ms _ w hmem, hz]
  simp

theorem applyAdjustments_get (totals adj : List (String × Int)) (w : String) :
    dget? (applyAdjustments totals adj) w =
      (dget? totals w).map (fun v => v + dgetD adj w 0) := by
  unfold applyAdjustments
  exact dget?_mapVal totals (fun k v => v + dgetD adj k 0) w

theorem keys_applyAdjustments (totals adj : List (String × Int)) :
    (applyAdjustments totals adj).map Prod.fst = totals.map Prod.fst := by
  unfold applyAdjustments
  exact keys_mapVal totals (fun k v => v + dgetD adj k 0)

/-! ### How the rename UPDATE moves ledger sums around -/

theorem sumFor_renameMap_to (l : List Transaction) (old new : String)
    (h : old ≠ new) :
    sumFor (l.map (fun t => if t.who == old then { t with who := new } else t))
      new = sumFor l old + sumFor l new := by
  induction l with
  | nil => simp [sumFor_nil]
  | cons t l ih =>
    obtain ⟨tts, tb, tw, ta, tn⟩ := t
    by_cases ht : tw = old
    · simp only [List.map_cons, if_pos (by simp [ht] : (tw == old) = true),
        sumFor_cons, ih]
      simp [ht, Ne.symm h, h]
      ring
    · simp only [List.map_cons, if_neg (by simp [ht] : ¬ (tw == old) = true),
        sumFor_cons, ih]
      by_cases htn : tw = new
      · simp [htn, ht, Ne.symm h]
        ring
      · simp [htn, ht]

theorem sumFor_renameMap_old (l : List Transaction) (old new : String)
    (h : old ≠ new) :
    sumFor (l.map (fun t => if t.who == old then { t with who := new } else t))
      old = 0 := by
  induction l with
  | nil => simp [sumFor_nil]
  | cons t l ih =>
    obtain ⟨tts, tb, tw, ta, tn⟩ := t
    by_cases ht : tw = old
    · simp only [List.map_cons, if_pos (by simp [ht] : (tw == old) = true),
        sumFor_cons, ih]
      simp [Ne.symm h]
    · simp only [List.map_cons, if_neg (by simp [ht] : ¬ (tw == old) = true),
        sumFor_cons, ih]
      simp [ht]

theorem sumFor_renameMap_other (l : List Transaction) (old new w : String)
    (hw : w ≠ old) (hw' : w ≠ new) :
    sumFor (l.map (fun t => if t.who == old then { t with who := new } else t))
      w = sumFor l w := by
  induction l with
  | nil => simp [sumFor_nil]
  | cons t l ih =>
    obtain ⟨tts, tb, tw, ta, tn⟩ := t
    by_cases ht : tw = old
    · simp only [List.map_cons, if_pos (by simp [ht] : (tw == old) = true),
        sumFor_cons, ih]
      simp [Ne.symm hw', ht, Ne.symm hw]
    · simp only [List.map_cons, if_neg (by simp [ht] : ¬ (tw == old) = true),
        sumFor_cons, ih]

theorem renameMap_self (l : List Transaction) (old : String) :
    l.map (fun t => if t.who == old then { t with who := old } else t) = l := by
  induction l with
  | nil => rfl
  | cons t l ih =>
    obtain ⟨tts, tb, tw, ta, tn⟩ := t
    by_cases ht : tw = old
    · simp only [List.map_cons, if_pos (by simp [ht] : (tw == old) = true), ih]
      simp [ht]
    · simp only [List.map_cons, if_neg (by simp [ht] : ¬ (tw == old) = true), ih]

/-! ### Each operation preserves the cache/ledger consistency -/

theorem sumFor_singleton_zero (t : Transaction) (w : String) (h : t.amount = 0) :
    sumFor [t] w = 0 := by
  by_cases hw : t.who = w <;> simp [sumFor, hw, h]

theorem parseRename_who (who : String) (r : RawRename) (m : RenameModel)
    (h : parseRename who r = some m) : m.who = who := by
  unfold parseRename at h
  split at h
  · split at h
    · cases h; rfl
    · cases h
  · cases h

theorem register_preserves_cacheOK (s : AppState) (who : String)
    (body : Option RawRegistration) (h : cacheOK s) :
    cacheOK (register_ticket_holder s who body).1 := by
  unfold register_ticket_holder
  cases hmem : dmem s.ticket_totals who with
  | true => simpa [hmem] using h
  | false =>
    cases body with
    | none => simpa [hmem] using h
    | some raw =>
      cases hp : parseRegistration who raw with
      | none => simpa [hmem, hp] using h
      | some reg =>
        simp only [hmem, Bool.false_eq_true, if_false, hp]
        have hwho : who ∉ s.ticket_totals.map Prod.fst := by
          intro hin
          rw [← dmem_iff_mem_keys] at hin
          rw [hmem] at hin
          cases hin
        constructor
        · show ((dset s.ticket_totals who 0).map Prod.fst).Nodup
          rw [keys_dset_of_not_mem _ _ _ hmem]
          exact h.1.append (List.nodup_singleton who) (by simpa using hwho)
        · intro w
          show dgetD (dset s.ticket_totals who 0) w 0 =
            sumFor (s.transactions ++ [reg.as_tuple]) w
          rw [sumFor_append, sumFor_singleton_zero _ _ rfl]
          by_cases hw : w = who
          · rw [hw]
            rw [show dgetD (dset s.ticket_totals who 0) who 0 = 0 by
              simp [dgetD, dget?_dset_self]]
            have hs : sumFor s.transactions who = 0 := by
              rw [← h.2 who]
              simp [dgetD, (dmem_false_iff _ _).mp hmem]
            rw [hs]
            ring
          · rw [show dgetD (dset s.ticket_totals who 0) w 0 =
                dgetD s.ticket_totals w 0 by
              simp [dgetD, dget?_dset_ne _ _ _ _ hw], h.2 w]
            ring

theorem rename_preserves_cacheOK (s : AppState) (who : String)
    (body : Option RawRename) (h : cacheOK s)
    (hfresh : ∀ raw m, body = some raw → parseRename who raw = some m →
      m.to_ = who ∨ dmem s.ticket_totals m.to_ = false) :
    cacheOK (rename_ticket_holder s who body).1 := by
  unfold rename_ticket_holder
  cases hmem : dmem s.ticket_totals who with
  | false => simpa [hmem] using h
  | true =>
    cases body with
    | none => simpa [hmem] using h
    | some raw =>
      cases hp : parseRename who raw with
      | none => simpa [hmem, hp] using h
      | some rn =>
        have hrnwho : rn.who = who := parseRename_who who raw rn hp
        simp only [hmem, not_true_eq_false, Bool.true_eq_false, if_false, hp]
        have hremnod : ((dremove s.ticket_totals rn.who).map Prod.fst).Nodup :=
          keys_dremove_nodup _ _ h.1
        have hremself : dget? (dremove s.ticket_totals rn.who) rn.who = none :=
          dget?_dremove_self _ _ h.1
        rcases hfresh raw rn rfl hp with hcase | hcase
        · -- rename to the same name: ledger rows and every lookup unchanged
          constructor
          · show ((dset (dremove s.ticket_totals rn.who) rn.to_
                (dgetD s.ticket_totals rn.who 0)).map Prod.fst).Nodup
            rw [hcase, ← hrnwho,
              keys_dset_of_not_mem _ _ _ ((dmem_false_iff _ _).mpr hremself)]
            refine hremnod.append (List.nodup_singleton _) ?_
            intro a ha hb
            rw [List.mem_singleton] at hb
            subst hb
            rw [← dmem_iff_mem_keys, (dmem_false_iff _ _).mpr hremself] at ha
            cases ha
          · intro w
            show dgetD (dset (dremove s.ticket_totals rn.who) rn.to_
                (dgetD s.ticket_totals rn.who 0)) w 0 =
              sumFor (s.transactions.map
                (fun t => if t.who == rn.who then { t with who := rn.to_ } else t)
                ++ [rn.as_tuple]) w
            rw [sumFor_append, sumFor_singleton_zero _ _ rfl, hcase, ← hrnwho,
              renameMap_self]
            by_cases hw : w = rn.who
            · rw [hw]
              rw [show dgetD (dset (dremove s.ticket_totals rn.who) rn.who
                    (dgetD s.ticket_totals rn.who 0)) rn.who 0 =
                  dgetD s.ticket_totals rn.who 0 by
                simp [dgetD, dget?_dset_self], h.2 rn.who]
              ring
            · rw [show dgetD (dset (dremove s.ticket_totals rn.who) rn.who
                    (dgetD s.ticket_totals rn.who 0)) w 0 =
                  dgetD s.ticket_totals w 0 by
                simp [dgetD, dget?_dset_ne _ _ _ _ hw,
                  dget?_dremove_ne _ _ _ hw], h.2 w]
              ring
        · -- rename to a fresh name
          have hto_ne : rn.to_ ≠ rn.who := by
            intro he
            rw [he, hrnwho] at hcase
            rw [hmem] at hcase
            cases hcase
          have hto_none : dget? s.ticket_totals rn.to_ = none :=
            (dmem_false_iff _ _).mp hcase
          have hremto : dget? (dremove s.ticket_totals rn.who) rn.to_ = none := by
            rw [dget?_dremove_ne _ _ _ hto_ne]
            exact hto_none
          constructor
          · show ((dset (dremove s.ticket_totals rn.who) rn.to_
                (dgetD s.ticket_totals rn.who 0)).map Prod.fst).Nodup
            rw [keys_dset_of_not_mem _ _ _ ((dmem_false_iff _ _).mpr hremto)]
            refine hremnod.append (List.nodup_singleton _) ?_
            intro a ha hb
            rw [List.mem_singleton] at hb
            subst hb
            rw [← dmem_iff_mem_keys, (dmem_false_iff _ _).mpr hremto] at ha
            cases ha
          · intro w
            show dgetD (dset (dremove s.ticket_totals rn.who) rn.to_
                (dgetD s.ticket_totals rn.who 0)) w 0 =
              sumFor (s.transactions.map
                (fun t => if t.who == rn.who then { t with who := rn.to_ } else t)
                ++ [rn.as_tuple]) w
            rw [sumFor_append, sumFor_singleton_zero _ _ rfl]
            by_cases hw : w = rn.to_
            · rw [hw]
              rw [show dgetD (dset (dremove s.ticket_totals rn.who) rn.to_
                    (dgetD s.ticket_totals rn.who 0)) rn.to_ 0 =
                  dgetD s.ticket_totals rn.who 0 by
                simp [dgetD, dget?_dset_self]]
              rw [sumFor_renameMap_to _ _ _ (Ne.symm hto_ne)]
              have hzero : sumFor s.transactions rn.to_ = 0 := by
                rw [← h.2 rn.to_]
                simp [dgetD, hto_none]
              rw [hzero, h.2 rn.who]
              ring
            · by_cases hw' : w = rn.who
              · rw [hw']
                rw [show dgetD (dset (dremove s.ticket_totals rn.who) rn.to_
                      (dgetD s.ticket_totals rn.who 0)) rn.who 0 = 0 by
                  simp [dgetD, dget?_dset_ne _ _ _ _ (Ne.symm hto_ne), hremself]]
                rw [sumFor_renameMap_old _ _ _ (Ne.symm hto_ne)]
                ring
              · rw [show dgetD (dset (dremove s.ticket_totals rn.who) rn.to_
                      (dgetD s.ticket_totals rn.who 0)) w 0 =
                    dgetD s.ticket_totals w 0 by
                  simp [dgetD, dget?_dset_ne _ _ _ _ hw,
                    dget?_dremove_ne _ _ _ hw'],
                  h.2 w, sumFor_renameMap_other _ _ _ _ hw' hw]
                ring

theorem post_preserves_cacheOK (s : AppState) (batch : List RawTransaction)
    (h : cacheOK s) : cacheOK (post_transactions s batch).1 := by
  unfold post_transactions
  cases hv : validateBatch s.ticket_totals batch with
  | none => simpa [hv] using h
  | some ms =>
    simp only [hv]
    constructor
    · show ((applyAdjustments s.ticket_totals
          (ticket_adjustments s.ticket_totals ms)).map Prod.fst).Nodup
      rw [keys_applyAdjustments]
      exact h.1
    · intro w
      show dgetD (applyAdjustments s.ticket_totals
          (ticket_adjustments s.ticket_totals ms)) w 0 =
        sumFor (s.transactions ++ ms.map TransactionModel.as_tuple) w
      rw [sumFor_append, sumFor_as_tuple]
      cases hw : dmem s.ticket_totals w with
      | true =>
        obtain ⟨v, hv'⟩ := (dmem_true_iff _ _).mp hw
        have hadj := ticket_adjustments_get s.ticket_totals ms w hw
        rw [show dgetD (applyAdjustments s.ticket_totals
              (ticket_adjustments s.ticket_totals ms)) w 0 =
            v + batchSum ms w by
          simp [dgetD, applyAdjustments_get, hv', hadj]]
        have : dgetD s.ticket_totals w 0 = v := by simp [dgetD, hv']
        rw [← this, h.2 w]
      | false =>
        have hn := (dmem_false_iff _ _).mp hw
        rw [show dgetD (applyAdjustments s.ticket_totals
              (ticket_adjustments s.ticket_totals ms)) w 0 = 0 by
          simp [dgetD, applyAdjustments_get, hn]]
        have hz : sumFor s.transactions w = 0 := by
          rw [← h.2 w]
          simp [dgetD, hn]
        have hbz : batchSum ms w = 0 := by
          refine batchSum_eq_zero ms w (fun m hm he => ?_)
          have := (validateBatch_mem _ _ _ hv m hm).1
          rw [he, hw] at this
          cases this
        rw [hz, hbz]
        ring

/-! ### Lemmas about annotation and the history sort -/

theorem annotateFrom_map_id (i : Nat) (l : List Transaction) :
    (annotateFrom i l).map (fun t => t.id) = List.range' i l.length := by
  induction l generalizing i with
  | nil => rfl
  | cons t l ih => simp [annotateFrom, List.range', ih]

theorem annotateFrom_append (i : Nat) (l₁ l₂ : List Transaction) :
    annotateFrom i (l₁ ++ l₂) =
      annotateFrom i l₁ ++ annotateFrom (i + l₁.length) l₂ := by
  induction l₁ generalizing i with
  | nil => simp [annotateFrom]
  | cons t l ih =>
    simp only [List.cons_append, annotateFrom, List.length_cons]
    rw [show i + (l.length + 1) = i + 1 + l.length by omega, ← ih (i + 1)]
    rfl

theorem annotateFrom_map_timestamp (i : Nat) (l : List Transaction) :
    (annotateFrom i l).map (fun t => t.timestamp) =
      l.map Transaction.timestamp := by
  induction l generalizing i with
  | nil => rfl
  | cons t l ih => simp [annotateFrom, ih]

theorem insertDesc_of_forall_lt (x : TransactionWithId)
    (l : List TransactionWithId)
    (h : ∀ y ∈ l, tsLt x.timestamp y.timestamp = true) :
    insertDesc x l = l ++ [x] := by
  induction l with
  | nil => rfl
  | cons y l ih =>
    rw [insertDesc, if_pos (h y (by simp)), ih (fun z hz => h z (by simp [hz]))]
    rfl

theorem sortDesc_of_strictly_ascending (l : List TransactionWithId)
    (h : l.Pairwise (fun a b => tsLt a.timestamp b.timestamp = true)) :
    sortDescByTimestamp l = l.reverse := by
  induction l with
  | nil => rfl
  | cons x l ih =>
    have hx := (List.pairwise_cons.mp h).1
    rw [sortDescByTimestamp, ih (List.pairwise_cons.mp h).2,
      insertDesc_of_forall_lt x _ (fun y hy => hx y (List.mem_reverse.mp hy))]
    simp

/-! ### Concrete states reached through the public operations

These replay the test suite's end-to-end scenario and two small
variations of it, entirely through the embedded handlers. -/

def scenarioS1 : AppState :=
  (register_ticket_holder AppState.empty "Elliot"
    (some ⟨some (dtZ 2021 3 2 4 40 0), some "Magda"⟩)).1

def scenarioS2 : AppState :=
  (register_ticket_holder scenarioS1 "Darlene"
    (some ⟨some (dtZ 2021 3 2 4 41 0), some "Edward"⟩)).1

def rewardBatch : List RawTransaction :=
  [⟨some (dtZ 2021 3 2 4 42 0), some "Edward", some "Darlene", some 500,
      some "Assembled her first PC!"⟩,
   ⟨some (dtZ 2021 3 2 4 43 0), some "Magda", some "Elliot", some 5,
      some "Brushed teeth"⟩]

def rewardModels : List TransactionModel :=
  [⟨dtZ 2021 3 2 4 42 0, "Edward", "Darlene", 500,
      some "Assembled her first PC!"⟩,
   ⟨dtZ 2021 3 2 4 43 0, "Magda", "Elliot", 5, some "Brushed teeth"⟩]

def scenarioS3 : AppState := (post_transactions scenarioS2 rewardBatch).1

def scenarioS4 : AppState :=
  (rename_ticket_holder scenarioS3 "Darlene"
    (some ⟨some (dtZ 2021 3 2 4 44 0), some "Edward", some "Dar"⟩)).1

/-- Register Elliot and Darlene, give both a nonzero balance, then
rename Elliot onto the already-registered name Darlene. -/
def collideS3 : AppState :=
  (post_transactions scenarioS2
    [⟨some (dtZ 2021 3 2 4 42 0), some "Edward", some "Elliot", some 5, none⟩,
     ⟨some (dtZ 2021 3 2 4 43 0), some "Edward", some "Darlene", some 7,
        none⟩]).1

def collideS4 : AppState :=
  (rename_ticket_holder collideS3 "Elliot"
    (some ⟨some (dtZ 2021 3 2 4 44 0), some "Edward", some "Darlene"⟩)).1

/-- Register a holder with a later caller-supplied timestamp than the
transaction posted afterwards. -/
def outOfOrderS1 : AppState :=
  (register_ticket_holder AppState.empty "Angela"
    (some ⟨some (dtZ 2021 3 2 5 0 0), some "Magda"⟩)).1

def outOfOrderS2 : AppState :=
  (post_transactions outOfOrderS1
    [⟨some (dtZ 2021 3 2 4 0 0), some "Magda", some "Angela", some 1, none⟩]).1

/-- A ledger as persisted on disk before a restart: one registration row. -/
def persistedLedger : List Transaction :=
  [{ timestamp := "2021-03-02T04:40:00Z", by_ := "Magda", who := "Elliot",
     amount := 0, note := some "Initial registration" }]

/-- A caller timestamp `2021-03-02T04:41:14.9+05:00`: offset +05:00 and
sub-second digits. -/
def offsetStamp : DateTime := ⟨2021, 3, 2, 4, 41, 14, 900000, some 300⟩

/-! ### Claim C1 -/

/-- C1 (code bug): the spec's startup `rebuild()` must leave
`SequenceCounter == count()`, and in particular set the counter to the
scanned row count. `init_state` does recompute the totals, but stores
the scanned `COUNT(*)` into `app.total_transactions` (main.py line 56) —
an attribute nothing in the program ever reads — while the counter the
rest of the code uses, `app.transaction_count` (line 20), stays 0.
Restarting over a persisted one-row ledger leaves the counter at 0
although `count()` is 1, violating the quiescent-point invariant
immediately after startup. -/
theorem restart_rebuild_leaves_counter_stale :
    (init_state persistedLedger).transaction_count ≠ persistedLedger.length ∧
    (init_state persistedLedger).total_transactions = persistedLedger.length ∧
    (init_state persistedLedger).ticket_totals = [("Elliot", 0)] := by
  refine ⟨by decide, by decide, by decide⟩

/-! ### Claim C2 -/

/-- C2 (counterexample): renaming a holder onto an already-registered
target silently overwrites the target's cached total
(`ticket_totals[to] = ticket_totals.pop(who)`), while the ledger UPDATE
merges both histories under the target name. After registering Elliot
and Darlene, posting Elliot +5 and Darlene +7, then renaming Elliot to
Darlene, the cache holds 5 for Darlene but the ledger rows attributed to
Darlene sum to 12 — so this reachable quiescent state falsifies the
claim that a rename whose target is already registered preserves the
balance-cache invariant. -/
theorem rename_onto_registered_target_breaks_cache :
    dgetD collideS4.ticket_totals "Darlene" 0 = 5 ∧
    sumFor collideS4.transactions "Darlene" = 12 ∧
    dgetD collideS4.ticket_totals "Darlene" 0 ≠
      sumFor collideS4.transactions "Darlene" := by
  refine ⟨by decide, by decide, by decide⟩

/-- The amended side condition: a rename request is only safe when its
parsed target either equals the renamed holder or is not yet in the
cache (the spec's own §4.2 precondition for `applyRename`). -/
def renameTargetSafe (s : AppState) : Op → Prop
  | .rename who body =>
    ∀ raw m, body = some raw → parseRename who raw = some m →
      m.to_ = who ∨ dmem s.ticket_totals m.to_ = false
  | _ => True

/-- C2 (amended): in every state whose cache is a well-formed dict
satisfying the balance invariant, each public operation — register,
post, and any rename whose target is not a distinct already-registered
holder — preserves the invariant: every holder's cached total equals
the sum of ledger amounts currently attributed to it. -/
theorem operations_preserve_balance_cache (s : AppState) (op : Op)
    (h : cacheOK s) (hsafe : renameTargetSafe s op) :
    cacheOK (applyOp s op).1 := by
  cases op with
  | register who body => exact register_preserves_cacheOK s who body h
  | rename who body => exact rename_preserves_cacheOK s who body h hsafe
  | post batch => exact post_preserves_cacheOK s batch h

theorem operations_preserve_balance_cache_witness :
    cacheOK (applyOp AppState.empty
      (Op.register "Elliot" (some ⟨some (dtZ 2021 3 2 4 40 0), some "Magda"⟩))).1 :=
  operations_preserve_balance_cache AppState.empty
    (Op.register "Elliot" (some ⟨some (dtZ 2021 3 2 4 40 0), some "Magda"⟩))
    ⟨List.nodup_nil, fun _ => rfl⟩ trivial

/-! ### Claim C3 -/

/-- An entry that is invalid in one of the three ways the claim lists:
it names an unregistered holder, or carries amount zero, or an empty
actor. -/
def invalidEntry (totals : List (String × Int)) (r : RawTransaction) : Prop :=
  (∃ w, r.who = some w ∧ dmem totals w = false) ∨
    r.amount = some 0 ∨ r.by_ = some ""

theorem validateTransaction_none_of_invalid (totals : List (String × Int))
    (r : RawTransaction) (h : invalidEntry totals r) :
    validateTransaction totals r = none := by
  unfold validateTransaction
  cases hts : r.timestamp <;> cases hb : r.by_ <;> cases hw : r.who <;>
    cases ha : r.amount <;> try rfl
  rename_i ts b w a
  show (if b ≠ "" ∧ w ≠ "" ∧ dmem totals w = true ∧ a ≠ 0 then
      some (⟨ts, b, w, a, r.note⟩ : TransactionModel) else none) = none
  rw [if_neg]
  rintro ⟨hb', _, hdm, ha'⟩
  rcases h with ⟨w', hw', hdm'⟩ | h0 | hbe
  · rw [hw] at hw'
    cases hw'
    rw [hdm] at hdm'
    cases hdm'
  · rw [ha] at h0
    cases h0
    exact ha' rfl
  · rw [hb] at hbe
    cases hbe
    exact hb' rfl

theorem validateBatch_none_of_mem (totals : List (String × Int))
    (rs : List RawTransaction) (r : RawTransaction) (hr : r ∈ rs)
    (hnone : validateTransaction totals r = none) :
    validateBatch totals rs = none := by
  induction rs with
  | nil => cases hr
  | cons r₀ rs ih =>
    rcases List.mem_cons.mp hr with he | hm
    · subst he
      unfold validateBatch
      rw [hnone]
    · unfold validateBatch
      rw [ih hm]
      cases validateTransaction totals r₀ <;> rfl

/-- C3: a posted batch containing at least one invalid entry — an
unregistered holder, a zero amount, or an empty actor — is rejected as a
whole with zero side effects: the returned state is exactly the
pre-request state (ledger, cache, counter and waiter registry all
untouched, so no notification fires either) and the response is the 400
validation error. -/
theorem invalid_batch_rejected_without_side_effects (s : AppState)
    (batch : List RawTransaction)
    (h : ∃ r ∈ batch, invalidEntry s.ticket_totals r) :
    post_transactions s batch = (s, Response.errors 400) := by
  obtain ⟨r, hr, hbad⟩ := h
  unfold post_transactions
  rw [validateBatch_none_of_mem s.ticket_totals batch r hr
    (validateTransaction_none_of_invalid s.ticket_totals r hbad)]

def ghostEntry : RawTransaction :=
  ⟨some (dtZ 2021 3 2 4 45 0), some "Edward", some "Ghost", some 5, none⟩

theorem invalid_batch_rejected_witness :
    post_transactions scenarioS2 [ghostEntry] =
      (scenarioS2, Response.errors 400) :=
  invalid_batch_rejected_without_side_effects scenarioS2 [ghostEntry]
    ⟨ghostEntry, by decide, Or.inl ⟨"Ghost", rfl, by decide⟩⟩

/-! ### Claim C4 -/

/-- C4: registering a holder already present in the cache is a complete
no-op with the AlreadyRegistered message: the membership check on
main.py line 97 runs before anything else, so the returned state is
exactly the pre-request state — ledger, cache, counter and waiter
registry unchanged, no notification — and the response is the
200-status message, whatever the request body was. -/
theorem register_already_registered_is_noop (s : AppState) (who : String)
    (body : Option RawRegistration) (h : dmem s.ticket_totals who = true) :
    register_ticket_holder s who body =
      (s, Response.message 200
        ("\"" ++ who ++ "\" is already a registered ticket holder.")) := by
  unfold register_ticket_holder
  rw [if_pos (by rw [h] : (dmem s.ticket_totals who : Prop))]

theorem register_already_registered_is_noop_witness :
    register_ticket_holder scenarioS1 "Elliot" none =
      (scenarioS1, Response.message 200
        ("\"" ++ "Elliot" ++ "\" is already a registered ticket holder.")) :=
  register_already_registered_is_noop scenarioS1 "Elliot" none (by decide)

/-! ### Claim C10 -/

/-- C10: in `register_ticket_holder` the already-registered check
precedes any request-body validation: for a registered holder the
handler answers the 200-status AlreadyRegistered message for every
body — missing, malformed or empty — and never a validation error,
while a registration that does pass validation of a fresh holder
answers 201. -/
theorem register_checks_membership_before_validation (s : AppState)
    (who : String) (body : Option RawRegistration) :
    (dmem s.ticket_totals who = true →
      (register_ticket_holder s who body).2 =
        Response.message 200
          ("\"" ++ who ++ "\" is already a registered ticket holder.")) ∧
    (dmem s.ticket_totals who = false →
      ∀ raw reg, body = some raw → parseRegistration who raw = some reg →
        ((register_ticket_holder s who body).2).status = 201) := by
  constructor
  · intro h
    rw [register_already_registered_is_noop s who body h]
  · intro h raw reg hb hp
    subst hb
    simp [register_ticket_holder, h, hp, Response.status]

theorem register_checks_membership_before_validation_witness :
    (register_ticket_holder scenarioS1 "Elliot" none).2 =
      Response.message 200
        ("\"" ++ "Elliot" ++ "\" is already a registered ticket holder.") ∧
    ((register_ticket_holder AppState.empty "Elliot"
        (some ⟨some (dtZ 2021 3 2 4 40 0), some "Magda"⟩)).2).status = 201 :=
  ⟨(register_checks_membership_before_validation scenarioS1 "Elliot" none).1
      (by decide),
   (register_checks_membership_before_validation AppState.empty "Elliot"
      (some ⟨some (dtZ 2021 3 2 4 40 0), some "Magda"⟩)).2 (by decide)
      ⟨some (dtZ 2021 3 2 4 40 0), some "Magda"⟩
      ⟨dtZ 2021 3 2 4 40 0, "Magda", "Elliot"⟩ rfl (by decide)⟩

/-! ### Claim C5 -/

/-- C5: the long-poll wait loop, read against a trace. The `while`
guard on main.py line 348 means `transaction_greater_than` returns
without ever suspending exactly when the current counter already
exceeds the threshold, and a caller arriving while `counter == T`
registers and suspends. A suspended waiter is woken by the mutation
whose post-mutation counter first satisfies the notify condition
(line 360), and its re-checked guard then agrees, so over any trace of
post-mutation counter values the waiter resumes exactly at the first
value ≥ T+1, and the counter it observes on resumption is that
mutation's post-mutation counter. -/
theorem long_poll_resumes_at_first_crossing (T c0 : Nat) (tr : List Nat)
    (hc0 : c0 = T) :
    wait_guard c0 T = true ∧
    (∀ c, T < c → wait_guard c T = false) ∧
    waiterResume T tr = tr.find? (fun c => decide (T + 1 ≤ c)) := by
  refine ⟨by simp [wait_guard, hc0], fun c hc => by simp [wait_guard]; omega, ?_⟩
  induction tr with
  | nil => rfl
  | cons c cs ih =>
    by_cases h : T < c
    · rw [waiterResume, if_pos ⟨by simpa [notify_fires] using h,
        by simp [wait_guard]; omega⟩,
        List.find?_cons_of_pos _ (by simpa using h)]
    · rw [waiterResume, if_neg (fun hc => h (by simpa [notify_fires] using hc.1)),
        List.find?_cons_of_neg _ (by simp; omega), ih]

theorem long_poll_resumes_at_first_crossing_witness :
    wait_guard 2 2 = true ∧
    (∀ c, 2 < c → wait_guard c 2 = false) ∧
    waiterResume 2 [2, 4, 5] = [2, 4, 5].find? (fun c => decide (2 + 1 ≤ c)) :=
  long_poll_resumes_at_first_crossing 2 2 [2, 4, 5] rfl

/-! ### Claim C6 -/

/-- C6: `notify_transaction_waiters` walks the registry once and fires
(sets the event of) exactly those registrations whose threshold is
strictly below the new counter value; every entry with threshold ≥ the
new counter is returned untouched, and no entry is added, dropped or
reordered. -/
theorem notify_fires_exactly_thresholds_below (count : Nat)
    (ws : List (Nat × TransactionWaiter)) (i : Nat) :
    (notify_transaction_waiters count ws)[i]? =
      (ws[i]?).map (fun p =>
        if p.1 < count then (p.1, { p.2 with event := true }) else p) := by
  induction ws generalizing i with
  | nil => simp [notify_transaction_waiters]
  | cons p rest ih =>
    obtain ⟨t, w⟩ := p
    cases i with
    | zero => by_cases h : t < count <;> simp [notify_transaction_waiters, h]
    | succ n => simp [notify_transaction_waiters, ih]

/-! ### Claim C7 -/

/-- C7: a fully valid batch is accepted with 201; the whole batch is
appended to the ledger in caller order so the persisted rows take the
next consecutive sequence ids in that same order, the counter advances
by exactly the batch length, every cached holder's balance moves by the
net signed sum of that holder's amounts in the batch, and this
per-holder net delta is invariant under any permutation of the batch. -/
theorem post_valid_batch_effects (s : AppState) (batch : List RawTransaction)
    (ms : List TransactionModel)
    (h : validateBatch s.ticket_totals batch = some ms) :
    (post_transactions s batch).2.status = 201 ∧
    (post_transactions s batch).1.transactions =
      s.transactions ++ ms.map TransactionModel.as_tuple ∧
    (post_transactions s batch).1.transaction_count =
      s.transaction_count + batch.length ∧
    (∀ w, dmem s.ticket_totals w = true →
      dgetD (post_transactions s batch).1.ticket_totals w 0 =
        dgetD s.ticket_totals w 0 + batchSum ms w) ∧
    (∀ ms', ms.Perm ms' → ∀ w, batchSum ms w = batchSum ms' w) ∧
    annotateIds (post_transactions s batch).1.transactions =
      annotateIds s.transactions ++
        annotateFrom (1 + s.transactions.length)
          (ms.map TransactionModel.as_tuple) ∧
    (annotateFrom (1 + s.transactions.length)
        (ms.map TransactionModel.as_tuple)).map (fun t => t.id) =
      List.range' (1 + s.transactions.length) batch.length := by
  have hlen := validateBatch_length s.ticket_totals batch ms h
  unfold post_transactions
  rw [h]
  refine ⟨rfl, rfl, by simpa using hlen, ?_, ?_, ?_, ?_⟩
  · intro w hw
    obtain ⟨v, hv⟩ := (dmem_true_iff _ _).mp hw
    have hadj := ticket_adjustments_get s.ticket_totals ms w hw
    show dgetD (applyAdjustments s.ticket_totals
        (ticket_adjustments s.ticket_totals ms)) w 0 =
      dgetD s.ticket_totals w 0 + batchSum ms w
    simp [dgetD, applyAdjustments_get, hv, hadj]
  · exact fun ms' hp w => batchSum_perm ms ms' hp w
  · show annotateIds (s.transactions ++ ms.map TransactionModel.as_tuple) = _
    unfold annotateIds
    rw [annotateFrom_append]
  · rw [annotateFrom_map_id]
    rw [show (ms.map TransactionModel.as_tuple).length = batch.length by
      simpa using hlen]

theorem post_valid_batch_effects_witness :
    (post_transactions scenarioS2 rewardBatch).1.transaction_count =
      scenarioS2.transaction_count + rewardBatch.length :=
  (post_valid_batch_effects scenarioS2 rewardBatch rewardModels
    (by decide)).2.2.1

/-! ### Claim C8 -/

/-- C8 (counterexample): the history listing is `ORDER BY timestamp
DESC` over the caller-supplied timestamp text, not by sequence id.
Register Angela with timestamp 05:00, then post a transaction
timestamped 04:00: the persisted rows carry ids 1 then 2, and the
default listing returns them as ids [1, 2] — not in strictly descending
sequence-id order. -/
theorem history_not_in_sequence_id_order :
    (gen_transactions false outOfOrderS2.transactions).map (fun t => t.id) =
      [1, 2] ∧
    outOfOrderS2.transactions.length = 2 ∧
    ¬ ((gen_transactions false outOfOrderS2.transactions).map
        (fun t => t.id)).Pairwise (fun a b => b < a) := by
  refine ⟨by decide, by decide, by decide⟩

/-- C8 (amended): the default history listing returns all ledger
entries annotated with their persisted sequence ids, newest-first by
the stored timestamp text (`ORDER BY timestamp DESC`); whenever the
stored timestamps strictly increase in insertion order — as they do in
the five-mutation end-to-end scenario — this order coincides with
strictly descending sequence ids n..1. -/
theorem history_newest_first_by_timestamp (ledger : List Transaction)
    (h : (ledger.map Transaction.timestamp).Pairwise
      (fun a b => tsLt a b = true)) :
    gen_transactions false ledger = (annotateIds ledger).reverse ∧
    (gen_transactions false ledger).map (fun t => t.id) =
      (List.range' 1 ledger.length).reverse := by
  have hts := annotateFrom_map_timestamp 1 ledger
  have hp : (annotateIds ledger).Pairwise
      (fun a b => tsLt a.timestamp b.timestamp = true) := by
    rw [← annotateIds] at hts
    rw [← hts] at h
    exact List.pairwise_map.mp h
  have h1 : gen_transactions false ledger = (annotateIds ledger).reverse := by
    unfold gen_transactions
    simpa using sortDesc_of_strictly_ascending _ hp
  refine ⟨h1, ?_⟩
  rw [h1, List.map_reverse, annotateIds, annotateFrom_map_id]

theorem history_newest_first_by_timestamp_witness :
    gen_transactions false scenarioS4.transactions =
      (annotateIds scenarioS4.transactions).reverse ∧
    (gen_transactions false scenarioS4.transactions).map (fun t => t.id) =
      (List.range' 1 scenarioS4.transactions.length).reverse :=
  history_newest_first_by_timestamp scenarioS4.transactions (by decide)

/-! ### Claim C9 -/

/-- C9 (code bug): `datetime_to_iso` zeroes the microseconds (truncation
is as specified) but then strips the caller's UTC offset with
`replace(tzinfo=None)` instead of converting the instant, and labels the
unchanged wall-clock digits `"Z"`. For the caller timestamp
`2021-03-02T04:41:14.9+05:00` the stored string is
`"2021-03-02T04:41:14Z"`, whose denoted instant is 5 hours (18000 s)
later than the instant the caller supplied — the stored value is not
that instant expressed in UTC (which would be `2021-03-01T23:41:14Z`). -/
theorem timestamp_offset_discarded_not_converted :
    datetime_to_iso offsetStamp = "2021-03-02T04:41:14Z" ∧
    persistedInstant offsetStamp = specUTCInstant offsetStamp + 18000 ∧
    persistedInstant offsetStamp ≠ specUTCInstant offsetStamp := by
  refine ⟨rfl, by decide, by decide⟩

end TicketVault
